import Mathlib

/-!
Verification of the JSON error repository and error-selector components of
the Java peer-review training tool.

JSON objects are modelled as association lists; `dict[k]` access that can
raise `KeyError` is modelled with `Option`; Python's global random number
generator is modelled as an explicit stream of naturals consumed by the
sampling helpers.
-/

/-- An error record: a flat JSON object mapping field names to strings. -/
abbrev ErrorRecord := List (String × String)

/-- A taxonomy: an insertion-ordered dictionary from category name to the
list of error records of that category. -/
abbrev ErrorDict := List (String × List ErrorRecord)

/-- The state of `JsonErrorRepository`: the two configured file names, the
two loaded taxonomies and their category lists. -/
structure JsonErrorRepository where
  build_errors_path : String
  checkstyle_errors_path : String
  build_errors : ErrorDict
  checkstyle_errors : ErrorDict
  build_categories : List String
  checkstyle_categories : List String
deriving DecidableEq, Repr

/-- Embeds `get_all_categories`: the dictionary with the build and checkstyle
category lists. -/
def get_all_categories (repo : JsonErrorRepository) : List String × List String :=
  (repo.build_categories, repo.checkstyle_categories)

/-- Embeds `get_category_errors`: the stored record list when the category type is
known and the name is a key of that taxonomy, the empty list otherwise. -/
def get_category_errors (repo : JsonErrorRepository)
    (category_type category_name : String) : List ErrorRecord :=
  if category_type == "build" && (repo.build_errors.lookup category_name).isSome then
    (repo.build_errors.lookup category_name).getD []
  else if category_type == "checkstyle" && (repo.checkstyle_errors.lookup category_name).isSome then
    (repo.checkstyle_errors.lookup category_name).getD []
  else []

/-- One taxonomy side of `get_errors_by_categories`: concatenate the record
lists of the selected categories that are keys of the dictionary. -/
def errorsByCategories (d : ErrorDict) : List String → List ErrorRecord
  | [] => []
  | c :: rest =>
    match d.lookup c with
    | some errs => errs ++ errorsByCategories d rest
    | none => errorsByCategories d rest

/-- The selected-categories argument: a dictionary with a `build` and a
`checkstyle` list of category names. -/
structure SelectedCats where
  build : List String
  checkstyle : List String
deriving DecidableEq, Repr

/-- Embeds `get_errors_by_categories`. -/
def get_errors_by_categories (repo : JsonErrorRepository) (sel : SelectedCats) :
    List ErrorRecord × List ErrorRecord :=
  (errorsByCategories repo.build_errors sel.build,
   errorsByCategories repo.checkstyle_errors sel.checkstyle)

/-- The inner loop of `get_error_details`: scan the categories in insertion
order, inside each category scan the records in order, and return the first
record whose `field` entry equals `n`. -/
def findInCategories (field n : String) : ErrorDict → Option ErrorRecord
  | [] => none
  | (_, errs) :: rest =>
    match errs.find? (fun r => r.lookup field == some n) with
    | some r => some r
    | none => findInCategories field n rest

/-- Embeds `get_error_details`: search the build taxonomy by `error_name` when
`error_type` is `"build"`, the checkstyle taxonomy by `check_name` when it
is `"checkstyle"`, and return `none` otherwise. -/
def get_error_details (repo : JsonErrorRepository) (error_type error_name : String) :
    Option ErrorRecord :=
  if error_type == "build" then
    findInCategories "error_name" error_name repo.build_errors
  else if error_type == "checkstyle" then
    findInCategories "check_name" error_name repo.checkstyle_errors
  else none

/-- Models `random.sample` on an explicit stream of naturals: draw `k`
elements without replacement, each pick indexed by the next stream value
reduced modulo the number of remaining elements. -/
def randomSample {α : Type} : List Nat → List α → Nat → List α
  | _, _, 0 => []
  | rng, xs, k + 1 =>
    if h : 0 < xs.length then
      xs.get ⟨rng.headD 0 % xs.length, Nat.mod_lt _ h⟩ ::
        randomSample rng.tail (xs.eraseIdx (rng.headD 0 % xs.length)) k
    else []

/-- Conversion of a stored record to the enriched dictionary built by
`get_random_errors_by_categories` and `get_errors_for_llm`: direct keyed
access to the name field and to `description` (so `none` when either is
missing), and `.get` with default `""` for `implementation_guide`. -/
def toLlmRecord (nameField typeStr category : String) (r : ErrorRecord) :
    Option ErrorRecord :=
  match r.lookup nameField, r.lookup "description" with
  | some n, some d =>
      some [("type", typeStr), ("category", category), ("name", n),
            ("description", d),
            ("implementation_guide", (r.lookup "implementation_guide").getD "")]
  | _, _ => none

/-- A Python `for` loop appending `f x` for each element, where computing
`f x` may raise: the list of results, or `none` at the first failure. -/
def tryMapList {α β : Type} (f : α → Option β) : List α → Option (List β)
  | [] => some []
  | x :: xs =>
    match f x with
    | none => none
    | some y =>
      match tryMapList f xs with
      | none => none
      | some ys => some (y :: ys)

/-- One taxonomy side of the pool built by
`get_random_errors_by_categories`: for each selected category that is a key
of the dictionary, convert each of its records in order. -/
def categoryPool (nameField typeStr : String) (d : ErrorDict) :
    List String → Option (List ErrorRecord)
  | [] => some []
  | c :: rest =>
    match d.lookup c with
    | none => categoryPool nameField typeStr d rest
    | some errs =>
      match tryMapList (toLlmRecord nameField typeStr c) errs with
      | none => none
      | some infos =>
        match categoryPool nameField typeStr d rest with
        | none => none
        | some tail => some (infos ++ tail)

/-- The full pool `all_errors` of `get_random_errors_by_categories`: build
entries first, then checkstyle entries. -/
def errorPool (repo : JsonErrorRepository) (sel : SelectedCats) :
    Option (List ErrorRecord) :=
  match categoryPool "error_name" "build" repo.build_errors sel.build with
  | none => none
  | some b =>
    match categoryPool "check_name" "checkstyle" repo.checkstyle_errors sel.checkstyle with
    | none => none
    | some c => some (b ++ c)

/-- Embeds `get_random_errors_by_categories`: build the pool, return it whole when
it has at most `count` elements, otherwise sample `count` of them; the
empty pool yields the empty list. -/
def get_random_errors_by_categories (repo : JsonErrorRepository)
    (sel : SelectedCats) (count : Nat) (rng : List Nat) :
    Option (List ErrorRecord) :=
  match errorPool repo sel with
  | none => none
  | some all_errors =>
    if all_errors ≠ [] then
      if all_errors.length ≤ count then some all_errors
      else some (randomSample rng all_errors count)
    else some []

/-- Python's `str.lower()` (ASCII model), character by character. -/
def pyLower (s : String) : String := ⟨s.data.map Char.toLower⟩

/-- The count-adjustment table of `get_errors_for_llm`:
`error_counts.get(difficulty.lower(), count)`. -/
def adjustedCount (difficulty : String) (count : Nat) : Nat :=
  if pyLower difficulty == "easy" then max 2 (count - 2)
  else if pyLower difficulty == "medium" then count
  else if pyLower difficulty == "hard" then count + 2
  else count

/-- Models `random.randint lo hi` on the explicit stream: a value in `[lo, hi]`
from the next stream element, consuming it. -/
def randint (lo hi : Nat) (rng : List Nat) : Nat × List Nat :=
  (lo + rng.headD 0 % (hi + 1 - lo), rng.tail)

/-- Embeds `_get_implementation_guide`: look the category up in the taxonomy named
by `error_type`, find the first record matching the name field, and return
its `implementation_guide` entry. -/
def getImplementationGuide (repo : JsonErrorRepository)
    (error_type error_name category : String) : Option String :=
  if error_type == "build" then
    match repo.build_errors.lookup category with
    | some errs =>
      match errs.find? (fun r => r.lookup "error_name" == some error_name) with
      | some r => r.lookup "implementation_guide"
      | none => none
    | none => none
  else if error_type == "checkstyle" then
    match repo.checkstyle_errors.lookup category with
    | some errs =>
      match errs.find? (fun r => r.lookup "check_name" == some error_name) with
      | some r => r.lookup "implementation_guide"
      | none => none
    | none => none
  else none

/-- Python dictionary assignment `r[k] = v`: replace the first binding of
`k`, or append a new binding when `k` is not present. -/
def dictSet (r : ErrorRecord) (k v : String) : ErrorRecord :=
  match r with
  | [] => [(k, v)]
  | (k', v') :: rest => if k' == k then (k, v) :: rest else (k', v') :: dictSet rest k v

/-- The per-error enrichment of the specific-errors branch of
`get_errors_for_llm`: fetch the implementation guide and, when it is truthy,
store it into the error dictionary. -/
def applyGuide (repo : JsonErrorRepository) (r : ErrorRecord) : ErrorRecord :=
  let error_type := (r.lookup "type").getD "Unknown"
  let name := (r.lookup "name").getD "Unknown"
  let category := (r.lookup "category").getD ""
  match getImplementationGuide repo error_type name category with
  | some g => if g ≠ "" then dictSet r "implementation_guide" g else r
  | none => r

/-- The problem-description line built for one selected error. -/
def problemDescription (r : ErrorRecord) : String :=
  let error_type := (r.lookup "type").getD "Unknown"
  let name := (r.lookup "name").getD "Unknown"
  let description := (r.lookup "description").getD ""
  let category := (r.lookup "category").getD ""
  if error_type == "build" then
    "Build Error - " ++ name ++ ": " ++ description ++ " (Category: " ++ category ++ ")"
  else
    "Checkstyle Error - " ++ name ++ ": " ++ description ++ " (Category: " ++ category ++ ")"

/-- One taxonomy side of the category-based branch of `get_errors_for_llm`:
for each selected category present in the taxonomy, pick
`min(len(category_errors), randint(1, 2))` random records and convert them. -/
def llmCategoryErrors (nameField typeStr : String) (d : ErrorDict) :
    List String → List Nat → Option (List ErrorRecord) × List Nat
  | [], rng => (some [], rng)
  | c :: rest, rng =>
    match d.lookup c with
    | none => llmCategoryErrors nameField typeStr d rest rng
    | some errs =>
      let p := randint 1 2 rng
      let num := min errs.length p.1
      let chosen := randomSample p.2 errs num
      match tryMapList (toLlmRecord nameField typeStr c) chosen with
      | none => (none, p.2.drop num)
      | some infos =>
        let q := llmCategoryErrors nameField typeStr d rest (p.2.drop num)
        (q.1.map (fun tail => infos ++ tail), q.2)

/-- The default category selection substituted by `get_errors_for_llm` when
both selected lists are empty. -/
def defaultLlmCategories : SelectedCats :=
  ⟨["CompileTimeErrors", "RuntimeErrors", "LogicalErrors"],
   ["NamingConventionChecks", "WhitespaceAndFormattingChecks"]⟩

/-- The sampling and final-selection part of the category-based branch of
`get_errors_for_llm`, after the default-substitution step: collect from
both taxonomies, then keep `adjusted_count` random entries when more were
collected, and pair the selection with its problem descriptions. -/
def llmAfterSubst (repo : JsonErrorRepository) (sc : SelectedCats)
    (adjusted_count : Nat) (rng : List Nat) :
    Option (List ErrorRecord × List String) :=
  match llmCategoryErrors "error_name" "build" repo.build_errors sc.build rng with
  | (none, _) => none
  | (some bErrs, rng1) =>
    match llmCategoryErrors "check_name" "checkstyle" repo.checkstyle_errors sc.checkstyle rng1 with
    | (none, _) => none
    | (some cErrs, rng2) =>
      if adjusted_count < (bErrs ++ cErrs).length then
        some (randomSample rng2 (bErrs ++ cErrs) adjusted_count,
              (randomSample rng2 (bErrs ++ cErrs) adjusted_count).map problemDescription)
      else
        some (bErrs ++ cErrs, (bErrs ++ cErrs).map problemDescription)

/-- The category-based branch of `get_errors_for_llm`: substitute the
default selection when both selected lists are empty, then sample. -/
def llmCategoryBranch (repo : JsonErrorRepository)
    (selected_categories : Option SelectedCats) (adjusted_count : Nat)
    (rng : List Nat) : Option (List ErrorRecord × List String) :=
  match selected_categories with
  | none => some ([], [])
  | some sc0 =>
    if sc0.build.isEmpty && sc0.checkstyle.isEmpty then
      llmAfterSubst repo defaultLlmCategories adjusted_count rng
    else
      llmAfterSubst repo sc0 adjusted_count rng

/-- Embeds `get_errors_for_llm`: specific errors when given and non-empty,
category-based sampling when a selection is given, empty lists otherwise. -/
def get_errors_for_llm (repo : JsonErrorRepository)
    (selected_categories : Option SelectedCats)
    (specific_errors : Option (List ErrorRecord))
    (count : Nat) (difficulty : String) (rng : List Nat) :
    Option (List ErrorRecord × List String) :=
  let adjusted_count := adjustedCount difficulty count
  match specific_errors with
  | some ses =>
    if ses.isEmpty then llmCategoryBranch repo selected_categories adjusted_count rng
    else
      let selected_errors := ses.map (applyGuide repo)
      some (selected_errors, selected_errors.map problemDescription)
  | none => llmCategoryBranch repo selected_categories adjusted_count rng

/-- The filesystem, abstracted: a finite map from path to `some dict` when
the file exists and parses as JSON, and to `none` when the file exists but
`json.load` raises; paths absent from the map do not exist. -/
abbrev FileSys := List (String × Option ErrorDict)

/-- Models `os.path.join` on abstract paths. -/
def pathJoin (a b : String) : String := a ++ "/" ++ b

/-- Embeds `_get_potential_file_paths`: the six candidate locations, in order. -/
def getPotentialFilePaths (current_dir parent_dir file_name : String) : List String :=
  [file_name,
   pathJoin current_dir file_name,
   pathJoin parent_dir file_name,
   pathJoin (pathJoin parent_dir "data") file_name,
   pathJoin (pathJoin parent_dir "resources") file_name,
   pathJoin (pathJoin parent_dir "assets") file_name]

/-- The path-probing loop: the content of the first candidate path that
exists, `none` when no candidate exists. -/
def firstExisting (fs : FileSys) : List String → Option (Option ErrorDict)
  | [] => none
  | p :: rest =>
    match fs.lookup p with
    | some c => some c
    | none => firstExisting fs rest

/-- Embeds `_load_build_errors`: probe the candidate paths; on the first existing
path, parse and store the dictionary and its key list and return `True`;
return `False` (state unchanged) when parsing raises or no path exists. -/
def loadBuildErrors (fs : FileSys) (current_dir parent_dir : String)
    (repo : JsonErrorRepository) : Bool × JsonErrorRepository :=
  match firstExisting fs (getPotentialFilePaths current_dir parent_dir repo.build_errors_path) with
  | some (some d) =>
    (true, { repo with build_errors := d, build_categories := d.map Prod.fst })
  | some none => (false, repo)
  | none => (false, repo)

/-- Embeds `_load_checkstyle_errors`, symmetric to `loadBuildErrors`. -/
def loadCheckstyleErrors (fs : FileSys) (current_dir parent_dir : String)
    (repo : JsonErrorRepository) : Bool × JsonErrorRepository :=
  match firstExisting fs (getPotentialFilePaths current_dir parent_dir repo.checkstyle_errors_path) with
  | some (some d) =>
    (true, { repo with checkstyle_errors := d, checkstyle_categories := d.map Prod.fst })
  | some none => (false, repo)
  | none => (false, repo)

/-- Embeds `load_error_data`: load both taxonomies, succeeding when both do. -/
def load_error_data (fs : FileSys) (current_dir parent_dir : String)
    (repo : JsonErrorRepository) : Bool × JsonErrorRepository :=
  let b := loadBuildErrors fs current_dir parent_dir repo
  let c := loadCheckstyleErrors fs current_dir parent_dir b.2
  (b.1 && c.1, c.2)

/-- Python's `in` on strings. -/
def substrOf (needle hay : String) : Bool :=
  decide (List.IsInfix needle.toList hay.toList)

/-- One record of `search_errors`: a singleton result when the lowered name
or description contains the term, the empty list otherwise; building the
result accesses the name and description fields directly. -/
def searchRecord (nameField typeStr category term : String) (r : ErrorRecord) :
    Option (List ErrorRecord) :=
  let name := pyLower ((r.lookup nameField).getD "")
  let description := pyLower ((r.lookup "description").getD "")
  if substrOf term name || substrOf term description then
    match r.lookup nameField, r.lookup "description" with
    | some n, some ds =>
      some [[("type", typeStr), ("category", category), ("name", n), ("description", ds)]]
    | _, _ => none
  else some []

/-- The scan of `search_errors` over one taxonomy, category by category. -/
def searchInDict (nameField typeStr term : String) : ErrorDict → Option (List ErrorRecord)
  | [] => some []
  | (c, errs) :: rest =>
    match tryMapList (searchRecord nameField typeStr c term) errs with
    | none => none
    | some hits =>
      match searchInDict nameField typeStr term rest with
      | none => none
      | some tail => some (hits.flatten ++ tail)

/-- Embeds `search_errors`: lower the term and scan both taxonomies. -/
def search_errors (repo : JsonErrorRepository) (search_term : String) :
    Option (List ErrorRecord) :=
  match searchInDict "error_name" "build" (pyLower search_term) repo.build_errors with
  | none => none
  | some b =>
    match searchInDict "check_name" "checkstyle" (pyLower search_term) repo.checkstyle_errors with
    | none => none
    | some c => some (b ++ c)

/-- The scan of `get_error_by_name` over one taxonomy: the first record
matching the name field, rebuilt with type and category; building the
result accesses the description field directly. -/
def errorByNameIn (nameField typeStr n : String) : ErrorDict → Option (Option ErrorRecord)
  | [] => some none
  | (c, errs) :: rest =>
    match errs.find? (fun r => r.lookup nameField == some n) with
    | some r =>
      match r.lookup nameField, r.lookup "description" with
      | some nm, some ds =>
        some (some [("type", typeStr), ("category", c), ("name", nm), ("description", ds)])
      | _, _ => none
    | none => errorByNameIn nameField typeStr n rest

/-- Embeds `get_error_by_name`. -/
def get_error_by_name (repo : JsonErrorRepository) (error_type error_name : String) :
    Option (Option ErrorRecord) :=
  if error_type == "build" then
    errorByNameIn "error_name" "build" error_name repo.build_errors
  else if error_type == "checkstyle" then
    errorByNameIn "check_name" "checkstyle" error_name repo.checkstyle_errors
  else some none

/-!
Method-call views of the query operations: each returns its result paired
with the repository state the method body leaves behind. The Python bodies
contain no assignment to `self`, so the post-state is the input state.
-/

/-- Method-call view of `get_all_categories`. -/
def get_all_categories_st (repo : JsonErrorRepository) :
    (List String × List String) × JsonErrorRepository :=
  (get_all_categories repo, repo)

/-- Method-call view of `get_category_errors`. -/
def get_category_errors_st (repo : JsonErrorRepository)
    (category_type category_name : String) :
    List ErrorRecord × JsonErrorRepository :=
  (get_category_errors repo category_type category_name, repo)

/-- Method-call view of `get_errors_by_categories`. -/
def get_errors_by_categories_st (repo : JsonErrorRepository) (sel : SelectedCats) :
    (List ErrorRecord × List ErrorRecord) × JsonErrorRepository :=
  (get_errors_by_categories repo sel, repo)

/-- Method-call view of `get_error_details`. -/
def get_error_details_st (repo : JsonErrorRepository) (error_type error_name : String) :
    Option ErrorRecord × JsonErrorRepository :=
  (get_error_details repo error_type error_name, repo)

/-- Method-call view of `get_random_errors_by_categories`. -/
def get_random_errors_by_categories_st (repo : JsonErrorRepository)
    (sel : SelectedCats) (count : Nat) (rng : List Nat) :
    Option (List ErrorRecord) × JsonErrorRepository :=
  (get_random_errors_by_categories repo sel count rng, repo)

/-- Method-call view of `get_errors_for_llm`. -/
def get_errors_for_llm_st (repo : JsonErrorRepository)
    (selected_categories : Option SelectedCats)
    (specific_errors : Option (List ErrorRecord))
    (count : Nat) (difficulty : String) (rng : List Nat) :
    Option (List ErrorRecord × List String) × JsonErrorRepository :=
  (get_errors_for_llm repo selected_categories specific_errors count difficulty rng, repo)

/-- Method-call view of `search_errors`. -/
def search_errors_st (repo : JsonErrorRepository) (search_term : String) :
    Option (List ErrorRecord) × JsonErrorRepository :=
  (search_errors repo search_term, repo)

/-- Method-call view of `get_error_by_name`. -/
def get_error_by_name_st (repo : JsonErrorRepository) (error_type error_name : String) :
    Option (Option ErrorRecord) × JsonErrorRepository :=
  (get_error_by_name repo error_type error_name, repo)

/-!
The problem-area mapping of `render_simple_mode` in the error selector.
-/

/-- The `mapping` entries of `problem_areas_config`, in declaration order. -/
def problem_areas_config : List (String × SelectedCats) :=
  [("Style", ⟨[], ["NamingConventionChecks", "WhitespaceAndFormattingChecks", "JavadocChecks"]⟩),
   ("Logical", ⟨["LogicalErrors"], []⟩),
   ("Performance", ⟨["RuntimeErrors"], ["MetricsChecks"]⟩),
   ("Security", ⟨["RuntimeErrors", "LogicalErrors"], ["CodeQualityChecks"]⟩),
   ("Design", ⟨["LogicalErrors"], ["MiscellaneousChecks", "FileStructureChecks", "BlockChecks"]⟩)]

/-- The inner loops of the category accumulation: append each element not
already present. -/
def addUnique (acc : List String) : List String → List String
  | [] => acc
  | y :: ys => if y ∈ acc then addUnique acc ys else addUnique (acc ++ [y]) ys

/-- The `selected_categories` computed at the end of `render_simple_mode`
from the chosen problem areas. -/
def render_simple_mode_categories (areas : List String) : SelectedCats :=
  areas.foldl
    (fun acc area =>
      match problem_areas_config.lookup area with
      | some m => ⟨addUnique acc.build m.build, addUnique acc.checkstyle m.checkstyle⟩
      | none => acc)
    ⟨[], []⟩

/-- Duplicate-free ordered union, keeping the first occurrence of each
element: the shape the specification ascribes to the selector's result. -/
def firstDedupAux (seen : List String) : List String → List String
  | [] => []
  | x :: xs => if x ∈ seen then firstDedupAux seen xs else x :: firstDedupAux (x :: seen) xs

/-- Duplicate-free ordered union of a list, first occurrences kept. -/
def firstDedup (l : List String) : List String := firstDedupAux [] l

/-- The build categories one problem area maps to (empty for areas outside
the configuration). -/
def areaMappedBuild (a : String) : List String :=
  ((problem_areas_config.lookup a).getD ⟨[], []⟩).build

/-- The checkstyle categories one problem area maps to. -/
def areaMappedCheckstyle (a : String) : List String :=
  ((problem_areas_config.lookup a).getD ⟨[], []⟩).checkstyle

/-- The records of a taxonomy in iteration order: category by category in
insertion order, records in list order inside each category. -/
def flattenRecords : ErrorDict → List ErrorRecord
  | [] => []
  | (_, errs) :: rest => errs ++ flattenRecords rest

/-- Well-formedness of one record: its name field and its description field
are present. -/
def recordWf (nameField : String) (r : ErrorRecord) : Prop :=
  (r.lookup nameField).isSome ∧ (r.lookup "description").isSome

/-- Well-formedness of the loaded taxonomies: every build record carries
`error_name` and `description`, every checkstyle record carries
`check_name` and `description`. -/
def repoWf (repo : JsonErrorRepository) : Prop :=
  (∀ e ∈ repo.build_errors, ∀ r ∈ e.2, recordWf "error_name" r) ∧
  (∀ e ∈ repo.checkstyle_errors, ∀ r ∈ e.2, recordWf "check_name" r)

/-- A small concrete repository used to instantiate the theorems. -/
def demoRepo : JsonErrorRepository :=
  { build_errors_path := "build_errors.json"
    checkstyle_errors_path := "checkstyle_error.json"
    build_errors :=
      [("Cat1", [[("error_name", "E1"), ("description", "d1")],
                 [("error_name", "E2"), ("description", "d2"), ("implementation_guide", "g2")]])]
    checkstyle_errors :=
      [("CS1", [[("check_name", "K1"), ("description", "dk")]])]
    build_categories := ["Cat1"]
    checkstyle_categories := ["CS1"] }

/-- A repository whose taxonomies are empty. -/
def emptyRepo : JsonErrorRepository :=
  { build_errors_path := "build_errors.json"
    checkstyle_errors_path := "checkstyle_error.json"
    build_errors := []
    checkstyle_errors := []
    build_categories := []
    checkstyle_categories := [] }

/-- A repository holding two distinct build records with the same
`error_name`, in one category. -/
def dupRepo : JsonErrorRepository :=
  { build_errors_path := "build_errors.json"
    checkstyle_errors_path := "checkstyle_error.json"
    build_errors :=
      [("Cat1", [[("error_name", "Dup"), ("description", "first")],
                 [("error_name", "Dup"), ("description", "second")]])]
    checkstyle_errors := []
    build_categories := ["Cat1"]
    checkstyle_categories := [] }

/-- A filesystem exposing the two demo JSON files under their bare names. -/
def demoFs : FileSys :=
  [("build_errors.json", some demoRepo.build_errors),
   ("checkstyle_error.json", some demoRepo.checkstyle_errors)]

/-- A filesystem exposing the duplicate-name build taxonomy. -/
def dupFs : FileSys :=
  [("build_errors.json", some dupRepo.build_errors)]

/-! Helper lemmas. -/

theorem lookup_mem {α β : Type} [BEq α] [LawfulBEq α] (a : α) (b : β) :
    ∀ l : List (α × β), l.lookup a = some b → (a, b) ∈ l := by
  intro l h
  induction l with
  | nil => simp [List.lookup] at h
  | cons x xs ih =>
    cases x with
    | mk k v =>
      rw [List.lookup] at h
      by_cases hx : a == k
      · simp only [hx, cond_true, Option.some.injEq] at h
        simp at hx
        subst hx h
        exact List.mem_cons_self _ _
      · simp only [hx, cond_false] at h
        exact List.mem_cons_of_mem _ (ih h)

theorem randomSample_length {α : Type} :
    ∀ (k : Nat) (rng : List Nat) (xs : List α),
      (randomSample rng xs k).length = min k xs.length := by
  intro k
  induction k with
  | zero => intro rng xs; simp [randomSample]
  | succ n ih =>
    intro rng xs
    rw [randomSample]
    by_cases h : 0 < xs.length
    · rw [dif_pos h]
      have hlt : rng.headD 0 % xs.length < xs.length := Nat.mod_lt _ h
      have herase : (xs.eraseIdx (rng.headD 0 % xs.length)).length = xs.length - 1 := by
        rw [List.length_eraseIdx, if_pos hlt]
      simp only [List.length_cons, ih, herase]
      omega
    · rw [dif_neg h]
      simp only [List.length_nil]
      omega

theorem randomSample_mem {α : Type} :
    ∀ (k : Nat) (rng : List Nat) (xs : List α) (x : α),
      x ∈ randomSample rng xs k → x ∈ xs := by
  intro k
  induction k with
  | zero => intro rng xs x hx; simp [randomSample] at hx
  | succ n ih =>
    intro rng xs x hx
    rw [randomSample] at hx
    by_cases h : 0 < xs.length
    · rw [dif_pos h] at hx
      rcases List.mem_cons.mp hx with heq | htl
      · subst heq; exact List.get_mem _ _ _
      · exact (List.eraseIdx_sublist xs _).mem (ih _ _ _ htl)
    · rw [dif_neg h] at hx
      simp at hx

theorem tryMapList_isSome {α β : Type} (f : α → Option β) :
    ∀ xs : List α, (∀ x ∈ xs, (f x).isSome) → ∃ ys, tryMapList f xs = some ys := by
  intro xs h
  induction xs with
  | nil => exact ⟨[], rfl⟩
  | cons x rest ih =>
    obtain ⟨y, hy⟩ := Option.isSome_iff_exists.mp (h x (List.mem_cons_self _ _))
    obtain ⟨ys, hys⟩ := ih (fun z hz => h z (List.mem_cons_of_mem _ hz))
    exact ⟨y :: ys, by rw [tryMapList, hy, hys]⟩

theorem tryMapList_mem {α β : Type} (f : α → Option β) :
    ∀ (xs : List α) (ys : List β), tryMapList f xs = some ys →
      ∀ y, y ∈ ys ↔ ∃ x ∈ xs, f x = some y := by
  intro xs
  induction xs with
  | nil =>
    intro ys h y
    rw [tryMapList] at h
    cases h
    simp
  | cons x rest ih =>
    intro ys h y
    rw [tryMapList] at h
    cases hfx : f x with
    | none => rw [hfx] at h; cases h
    | some b =>
      rw [hfx] at h
      cases hrest : tryMapList f rest with
      | none => rw [hrest] at h; cases h
      | some bs =>
        rw [hrest] at h
        cases h
        constructor
        · intro hy
          rcases List.mem_cons.mp hy with heq | htl
          · exact ⟨x, List.mem_cons_self _ _, by rw [hfx, heq]⟩
          · obtain ⟨z, hz, hfz⟩ := ((ih bs hrest) y).mp htl
            exact ⟨z, List.mem_cons_of_mem _ hz, hfz⟩
        · rintro ⟨z, hz, hfz⟩
          rcases List.mem_cons.mp hz with heq | htl
          · subst heq
            rw [hfx] at hfz
            cases hfz
            exact List.mem_cons_self _ _
          · exact List.mem_cons_of_mem _ (((ih bs hrest) y).mpr ⟨z, htl, hfz⟩)

theorem toLlmRecord_isSome (nameField typeStr c : String) (r : ErrorRecord)
    (hr : recordWf nameField r) : ∃ x, toLlmRecord nameField typeStr c r = some x := by
  obtain ⟨n, hn⟩ := Option.isSome_iff_exists.mp hr.1
  obtain ⟨ds, hd⟩ := Option.isSome_iff_exists.mp hr.2
  exact ⟨[("type", typeStr), ("category", c), ("name", n), ("description", ds),
          ("implementation_guide", (r.lookup "implementation_guide").getD "")],
         by rw [toLlmRecord]; simp only [hn, hd]⟩

theorem categoryPool_isSome (nameField typeStr : String) (d : ErrorDict)
    (hwf : ∀ e ∈ d, ∀ r ∈ e.2, recordWf nameField r) :
    ∀ cats : List String, ∃ pool, categoryPool nameField typeStr d cats = some pool := by
  intro cats
  induction cats with
  | nil => exact ⟨[], rfl⟩
  | cons c rest ih =>
    obtain ⟨tail, htail⟩ := ih
    rw [categoryPool]
    cases hc : d.lookup c with
    | none => exact ⟨tail, htail⟩
    | some errs =>
      have hrec : ∀ r ∈ errs, recordWf nameField r :=
        hwf (c, errs) (lookup_mem c errs d hc)
      have hsome : ∀ r ∈ errs, (toLlmRecord nameField typeStr c r).isSome := by
        intro r hr
        obtain ⟨x, hx⟩ := toLlmRecord_isSome nameField typeStr c r (hrec r hr)
        rw [hx]; rfl
      obtain ⟨infos, hinfos⟩ := tryMapList_isSome _ errs hsome
      exact ⟨infos ++ tail, by simp only [hc, hinfos, htail]⟩

theorem categoryPool_mem (nameField typeStr : String) (d : ErrorDict) :
    ∀ (cats : List String) (pool : List ErrorRecord),
      categoryPool nameField typeStr d cats = some pool →
      ∀ x, x ∈ pool ↔
        ∃ c ∈ cats, ∃ errs, d.lookup c = some errs ∧
          ∃ r ∈ errs, toLlmRecord nameField typeStr c r = some x := by
  intro cats
  induction cats with
  | nil =>
    intro pool h x
    rw [categoryPool] at h
    cases h
    simp
  | cons c rest ih =>
    intro pool h x
    rw [categoryPool] at h
    cases hc : d.lookup c with
    | none =>
      rw [hc] at h
      rw [ih pool h x]
      constructor
      · rintro ⟨c', hc', rest'⟩
        exact ⟨c', List.mem_cons_of_mem _ hc', rest'⟩
      · rintro ⟨c', hc', errs, herrs, hr⟩
        rcases List.mem_cons.mp hc' with heq | htl
        · subst heq; rw [hc] at herrs; cases herrs
        · exact ⟨c', htl, errs, herrs, hr⟩
    | some errs =>
      rw [hc] at h
      cases hinfos : tryMapList (toLlmRecord nameField typeStr c) errs with
      | none => simp only [hinfos] at h; exact Option.noConfusion h
      | some infos =>
        simp only [hinfos] at h
        cases htail : categoryPool nameField typeStr d rest with
        | none => simp only [htail] at h; exact Option.noConfusion h
        | some tail =>
          simp only [htail, Option.some.injEq] at h
          subst h
          rw [List.mem_append]
          constructor
          · rintro (hin | hin)
            · obtain ⟨r, hr, hfr⟩ := (tryMapList_mem _ errs infos hinfos x).mp hin
              exact ⟨c, List.mem_cons_self _ _, errs, hc, r, hr, hfr⟩
            · obtain ⟨c', hc', rest'⟩ := (ih tail htail x).mp hin
              exact ⟨c', List.mem_cons_of_mem _ hc', rest'⟩
          · rintro ⟨c', hc', errs', herrs', r, hr, hfr⟩
            rcases List.mem_cons.mp hc' with heq | htl
            · subst heq
              rw [hc] at herrs'
              cases herrs'
              exact Or.inl ((tryMapList_mem _ errs infos hinfos x).mpr ⟨r, hr, hfr⟩)
            · exact Or.inr ((ih tail htail x).mpr ⟨c', htl, errs', herrs', r, hr, hfr⟩)

theorem errorPool_eq_some (repo : JsonErrorRepository) (sel : SelectedCats)
    (pool : List ErrorRecord) :
    errorPool repo sel = some pool ↔
      ∃ b c, categoryPool "error_name" "build" repo.build_errors sel.build = some b ∧
        categoryPool "check_name" "checkstyle" repo.checkstyle_errors sel.checkstyle = some c ∧
        pool = b ++ c := by
  rw [errorPool]
  cases hb : categoryPool "error_name" "build" repo.build_errors sel.build with
  | none =>
    constructor
    · intro h; cases h
    · rintro ⟨b, c, hb', _, _⟩; exact Option.noConfusion hb'
  | some b =>
    cases hc : categoryPool "check_name" "checkstyle" repo.checkstyle_errors sel.checkstyle with
    | none =>
      constructor
      · intro h; cases h
      · rintro ⟨b', c', hb', hc', _⟩
        exact Option.noConfusion hc'
    | some c =>
      constructor
      · intro h
        cases h
        exact ⟨b, c, rfl, rfl, rfl⟩
      · rintro ⟨b', c', hb', hc', hp⟩
        cases hb'
        cases hc'
        subst hp
        rfl

theorem findInCategories_eq_find (field n : String) :
    ∀ d : ErrorDict, findInCategories field n d =
      (flattenRecords d).find? (fun r => r.lookup field == some n) := by
  intro d
  induction d with
  | nil => rfl
  | cons e rest ih =>
    cases e with
    | mk c errs =>
      rw [findInCategories, flattenRecords, List.find?_append]
      cases hf : errs.find? (fun r => r.lookup field == some n) with
      | some r => simp [Option.or]
      | none => simp [Option.or, ih]

theorem firstExisting_first (fs : FileSys) :
    ∀ (l₁ : List String) (p : String) (l₂ : List String) (c : Option ErrorDict),
      (∀ q ∈ l₁, fs.lookup q = none) → fs.lookup p = some c →
      firstExisting fs (l₁ ++ p :: l₂) = some c := by
  intro l₁
  induction l₁ with
  | nil =>
    intro p l₂ c _ hp
    rw [List.nil_append, firstExisting, hp]
  | cons q rest ih =>
    intro p l₂ c h1 hp
    rw [List.cons_append, firstExisting, h1 q (List.mem_cons_self _ _)]
    exact ih p l₂ c (fun q' hq' => h1 q' (List.mem_cons_of_mem _ hq')) hp

theorem firstExisting_none (fs : FileSys) :
    ∀ paths : List String, (∀ q ∈ paths, fs.lookup q = none) →
      firstExisting fs paths = none := by
  intro paths
  induction paths with
  | nil => intro _; rfl
  | cons p rest ih =>
    intro h
    rw [firstExisting, h p (List.mem_cons_self _ _)]
    exact ih (fun q hq => h q (List.mem_cons_of_mem _ hq))

theorem firstDedupAux_congr :
    ∀ (l s₁ s₂ : List String), (∀ x, x ∈ s₁ ↔ x ∈ s₂) →
      firstDedupAux s₁ l = firstDedupAux s₂ l := by
  intro l
  induction l with
  | nil => intro s₁ s₂ _; rfl
  | cons x xs ih =>
    intro s₁ s₂ h
    rw [firstDedupAux, firstDedupAux]
    by_cases hx : x ∈ s₁
    · rw [if_pos hx, if_pos ((h x).mp hx)]
      exact ih s₁ s₂ h
    · rw [if_neg hx, if_neg (fun hc => hx ((h x).mpr hc))]
      rw [ih (x :: s₁) (x :: s₂) (fun y => by simp [h y])]

theorem addUnique_eq :
    ∀ (l acc : List String), addUnique acc l = acc ++ firstDedupAux acc l := by
  intro l
  induction l with
  | nil => intro acc; rw [addUnique, firstDedupAux, List.append_nil]
  | cons y ys ih =>
    intro acc
    rw [addUnique, firstDedupAux]
    by_cases hy : y ∈ acc
    · rw [if_pos hy, if_pos hy]
      exact ih acc
    · rw [if_neg hy, if_neg hy, ih (acc ++ [y])]
      rw [firstDedupAux_congr ys (acc ++ [y]) (y :: acc)
        (by intro x; simp [List.mem_append, or_comm])]
      simp [List.append_assoc]

theorem firstDedupAux_append :
    ∀ (l₁ l₂ s : List String),
      firstDedupAux s (l₁ ++ l₂) =
        firstDedupAux s l₁ ++ firstDedupAux (firstDedupAux s l₁ ++ s) l₂ := by
  intro l₁
  induction l₁ with
  | nil =>
    intro l₂ s
    rw [List.nil_append]
    simp [firstDedupAux]
  | cons x xs ih =>
    intro l₂ s
    rw [List.cons_append, firstDedupAux, firstDedupAux]
    by_cases hx : x ∈ s
    · rw [if_pos hx, if_pos hx]
      exact ih l₂ s
    · rw [if_neg hx, if_neg hx, ih l₂ (x :: s), List.cons_append]
      congr 1
      congr 1
      apply firstDedupAux_congr
      intro z
      simp only [List.mem_append, List.mem_cons]
      tauto

theorem firstDedupAux_nodup :
    ∀ (l s : List String),
      (firstDedupAux s l).Nodup ∧ ∀ x ∈ firstDedupAux s l, x ∉ s := by
  intro l
  induction l with
  | nil => intro s; simp [firstDedupAux]
  | cons x xs ih =>
    intro s
    rw [firstDedupAux]
    by_cases hx : x ∈ s
    · rw [if_pos hx]
      exact ih s
    · rw [if_neg hx]
      obtain ⟨hn, hns⟩ := ih (x :: s)
      refine ⟨List.nodup_cons.mpr ⟨?_, hn⟩, ?_⟩
      · intro hmem
        exact (hns x hmem) (List.mem_cons_self _ _)
      · intro z hz
        rcases List.mem_cons.mp hz with rfl | hz1
        · exact hx
        · intro hzs
          exact hns z hz1 (List.mem_cons_of_mem _ hzs)

theorem render_fold :
    ∀ (areas : List String) (acc : SelectedCats),
      areas.foldl
        (fun acc area =>
          match problem_areas_config.lookup area with
          | some m => ⟨addUnique acc.build m.build, addUnique acc.checkstyle m.checkstyle⟩
          | none => acc) acc =
      ⟨acc.build ++ firstDedupAux acc.build (areas.flatMap areaMappedBuild),
       acc.checkstyle ++ firstDedupAux acc.checkstyle (areas.flatMap areaMappedCheckstyle)⟩ := by
  intro areas
  induction areas with
  | nil =>
    intro acc
    cases acc
    simp [firstDedupAux]
  | cons a rest ih =>
    intro acc
    cases hm : problem_areas_config.lookup a with
    | none =>
      have hb : areaMappedBuild a = [] := by rw [areaMappedBuild, hm]; rfl
      have hcs : areaMappedCheckstyle a = [] := by rw [areaMappedCheckstyle, hm]; rfl
      simp only [List.foldl_cons, hm, List.flatMap_cons, hb, hcs, List.nil_append]
      exact ih acc
    | some m =>
      have hb : areaMappedBuild a = m.build := by rw [areaMappedBuild, hm]; rfl
      have hcs : areaMappedCheckstyle a = m.checkstyle := by rw [areaMappedCheckstyle, hm]; rfl
      simp only [List.foldl_cons, hm, List.flatMap_cons, hb, hcs]
      rw [ih ⟨addUnique acc.build m.build, addUnique acc.checkstyle m.checkstyle⟩]
      simp only [SelectedCats.mk.injEq]
      constructor
      · rw [addUnique_eq, firstDedupAux_append]
        rw [firstDedupAux_congr (rest.flatMap areaMappedBuild)
          (acc.build ++ firstDedupAux acc.build m.build)
          (firstDedupAux acc.build m.build ++ acc.build)
          (by intro z; simp only [List.mem_append]; tauto)]
        simp [List.append_assoc]
      · rw [addUnique_eq, firstDedupAux_append]
        rw [firstDedupAux_congr (rest.flatMap areaMappedCheckstyle)
          (acc.checkstyle ++ firstDedupAux acc.checkstyle m.checkstyle)
          (firstDedupAux acc.checkstyle m.checkstyle ++ acc.checkstyle)
          (by intro z; simp only [List.mem_append]; tauto)]
        simp [List.append_assoc]

theorem get_random_errors_unfold (repo : JsonErrorRepository) (sel : SelectedCats)
    (count : Nat) (rng : List Nat) (pool : List ErrorRecord)
    (h : errorPool repo sel = some pool) :
    get_random_errors_by_categories repo sel count rng =
      if pool ≠ [] then
        if pool.length ≤ count then some pool
        else some (randomSample rng pool count)
      else some [] := by
  rw [get_random_errors_by_categories, h]

/-- C2: after construction, every query operation of `JsonErrorRepository`
(`get_all_categories`, `get_category_errors`, `get_errors_by_categories`,
`get_error_details`, `get_random_errors_by_categories`,
`get_errors_for_llm`, `search_errors`, `get_error_by_name`) leaves the
repository state — the two taxonomies and the two category lists —
unchanged. -/
theorem query_operations_preserve_state :
    ∀ (repo : JsonErrorRepository) (ct cn et en term : String) (sel : SelectedCats)
      (osel : Option SelectedCats) (ospec : Option (List ErrorRecord))
      (count : Nat) (difficulty : String) (rng : List Nat),
      (get_all_categories_st repo).2 = repo ∧
      (get_category_errors_st repo ct cn).2 = repo ∧
      (get_errors_by_categories_st repo sel).2 = repo ∧
      (get_error_details_st repo et en).2 = repo ∧
      (get_random_errors_by_categories_st repo sel count rng).2 = repo ∧
      (get_errors_for_llm_st repo osel ospec count difficulty rng).2 = repo ∧
      (search_errors_st repo term).2 = repo ∧
      (get_error_by_name_st repo et en).2 = repo :=
  fun _ _ _ _ _ _ _ _ _ _ _ _ => ⟨rfl, rfl, rfl, rfl, rfl, rfl, rfl, rfl⟩

/-- C7: `get_category_errors` returns the stored record list when the
category type is `"build"` or `"checkstyle"` and the name is a key of that
taxonomy, and the empty list (it is total, so it never raises) for an
unknown category name or any other category type. -/
theorem get_category_errors_spec :
    ∀ (repo : JsonErrorRepository) (category_name : String),
      (∀ errs, repo.build_errors.lookup category_name = some errs →
        get_category_errors repo "build" category_name = errs) ∧
      (repo.build_errors.lookup category_name = none →
        get_category_errors repo "build" category_name = []) ∧
      (∀ errs, repo.checkstyle_errors.lookup category_name = some errs →
        get_category_errors repo "checkstyle" category_name = errs) ∧
      (repo.checkstyle_errors.lookup category_name = none →
        get_category_errors repo "checkstyle" category_name = []) ∧
      (∀ category_type, category_type ≠ "build" → category_type ≠ "checkstyle" →
        get_category_errors repo category_type category_name = []) := by
  intro repo cn
  refine ⟨?_, ?_, ?_, ?_, ?_⟩
  · intro errs h
    rw [get_category_errors]
    simp [h]
  · intro h
    rw [get_category_errors]
    simp [h]
  · intro errs h
    rw [get_category_errors]
    simp [h]
  · intro h
    rw [get_category_errors]
    simp [h]
  · intro ct h1 h2
    rw [get_category_errors]
    simp [h1, h2]

theorem get_category_errors_spec_witness :
    get_category_errors demoRepo "build" "Cat1" =
      [[("error_name", "E1"), ("description", "d1")],
       [("error_name", "E2"), ("description", "d2"), ("implementation_guide", "g2")]] ∧
    get_category_errors demoRepo "other" "Cat1" = [] :=
  ⟨(get_category_errors_spec demoRepo "Cat1").1 _ rfl,
   (get_category_errors_spec demoRepo "Cat1").2.2.2.2 "other" (by decide) (by decide)⟩

/-- C6: `get_error_details` searches only the build taxonomy (matching the
`error_name` field) when the type is `"build"`, only the checkstyle
taxonomy (matching `check_name`) when it is `"checkstyle"`, returning the
first matching record in category-then-list order, `none` when nothing
matches, and `none` for any other type string. -/
theorem get_error_details_spec :
    ∀ (repo : JsonErrorRepository) (error_name : String),
      get_error_details repo "build" error_name =
        (flattenRecords repo.build_errors).find?
          (fun r => r.lookup "error_name" == some error_name) ∧
      get_error_details repo "checkstyle" error_name =
        (flattenRecords repo.checkstyle_errors).find?
          (fun r => r.lookup "check_name" == some error_name) ∧
      ∀ error_type, error_type ≠ "build" → error_type ≠ "checkstyle" →
        get_error_details repo error_type error_name = none := by
  intro repo n
  refine ⟨?_, ?_, ?_⟩
  · rw [get_error_details]
    simp [findInCategories_eq_find]
  · rw [get_error_details]
    simp [findInCategories_eq_find]
  · intro t h1 h2
    rw [get_error_details]
    simp [h1, h2]

theorem get_error_details_spec_witness :
    get_error_details demoRepo "other" "E1" = none ∧
    get_error_details demoRepo "build" "E2" =
      some [("error_name", "E2"), ("description", "d2"), ("implementation_guide", "g2")] :=
  ⟨(get_error_details_spec demoRepo "E1").2.2 "other" (by decide) (by decide),
   by rw [(get_error_details_spec demoRepo "E2").1]; rfl⟩

/-- C1: `get_random_errors_by_categories` builds the pool of all converted
records of the selected categories present in the taxonomies (first
conjunct characterises its membership), returns the whole pool when its
size is at most `count`, otherwise exactly `count` elements drawn from that
pool, and the empty list for the empty pool. -/
theorem get_random_errors_by_categories_spec :
    ∀ (repo : JsonErrorRepository) (sel : SelectedCats) (count : Nat) (rng : List Nat)
      (pool : List ErrorRecord),
      errorPool repo sel = some pool →
      (∀ x, x ∈ pool ↔
        (∃ c ∈ sel.build, ∃ errs, repo.build_errors.lookup c = some errs ∧
          ∃ r ∈ errs, toLlmRecord "error_name" "build" c r = some x) ∨
        (∃ c ∈ sel.checkstyle, ∃ errs, repo.checkstyle_errors.lookup c = some errs ∧
          ∃ r ∈ errs, toLlmRecord "check_name" "checkstyle" c r = some x)) ∧
      (pool.length ≤ count →
        get_random_errors_by_categories repo sel count rng = some pool) ∧
      (count < pool.length →
        ∃ l, get_random_errors_by_categories repo sel count rng = some l ∧
          l.length = count ∧ ∀ x ∈ l, x ∈ pool) ∧
      (pool = [] → get_random_errors_by_categories repo sel count rng = some []) := by
  intro repo sel count rng pool hpool
  refine ⟨?_, ?_, ?_, ?_⟩
  · obtain ⟨b, cc, hb, hcc, hp⟩ := (errorPool_eq_some repo sel pool).mp hpool
    subst hp
    intro x
    rw [List.mem_append, categoryPool_mem _ _ _ _ _ hb x, categoryPool_mem _ _ _ _ _ hcc x]
  · intro hle
    rw [get_random_errors_unfold repo sel count rng pool hpool]
    by_cases hnil : pool = []
    · rw [if_neg (by simp [hnil]), hnil]
    · rw [if_pos hnil, if_pos hle]
  · intro hlt
    have hnil : pool ≠ [] := by
      intro h0
      rw [h0] at hlt
      simp at hlt
    refine ⟨randomSample rng pool count, ?_, ?_, ?_⟩
    · rw [get_random_errors_unfold repo sel count rng pool hpool, if_pos hnil,
        if_neg (by omega)]
    · rw [randomSample_length]
      omega
    · intro x hx
      exact randomSample_mem count rng pool x hx
  · intro h0
    rw [get_random_errors_unfold repo sel count rng pool hpool, if_neg (by simp [h0])]

theorem get_random_errors_by_categories_spec_witness :
    ∃ l, get_random_errors_by_categories demoRepo ⟨["Cat1"], ["CS1"]⟩ 2 [1, 0] = some l ∧
      l.length = 2 ∧
      ∀ x ∈ l, x ∈
        [[("type", "build"), ("category", "Cat1"), ("name", "E1"),
          ("description", "d1"), ("implementation_guide", "")],
         [("type", "build"), ("category", "Cat1"), ("name", "E2"),
          ("description", "d2"), ("implementation_guide", "g2")],
         [("type", "checkstyle"), ("category", "CS1"), ("name", "K1"),
          ("description", "dk"), ("implementation_guide", "")]] :=
  (get_random_errors_by_categories_spec demoRepo ⟨["Cat1"], ["CS1"]⟩ 2 [1, 0]
    [[("type", "build"), ("category", "Cat1"), ("name", "E1"),
      ("description", "d1"), ("implementation_guide", "")],
     [("type", "build"), ("category", "Cat1"), ("name", "E2"),
      ("description", "d2"), ("implementation_guide", "g2")],
     [("type", "checkstyle"), ("category", "CS1"), ("name", "K1"),
      ("description", "dk"), ("implementation_guide", "")]] rfl).2.2.1 (by decide)

/-- C5: under the precondition that every stored record carries its name
field and a description (`repoWf`), `get_random_errors_by_categories`
always returns a value (the keyed accesses cannot fail), and a record
missing the optional `implementation_guide` field is converted with the
empty string as its `implementation_guide`. -/
theorem get_random_errors_by_categories_total :
    ∀ repo : JsonErrorRepository, repoWf repo →
      (∀ (sel : SelectedCats) (count : Nat) (rng : List Nat),
        ∃ l, get_random_errors_by_categories repo sel count rng = some l) ∧
      (∀ (nameField typeStr c : String) (r : ErrorRecord),
        recordWf nameField r → r.lookup "implementation_guide" = none →
        ∃ n d, toLlmRecord nameField typeStr c r =
          some [("type", typeStr), ("category", c), ("name", n),
                ("description", d), ("implementation_guide", "")]) := by
  intro repo hwf
  constructor
  · intro sel count rng
    obtain ⟨b, hb⟩ := categoryPool_isSome "error_name" "build" repo.build_errors hwf.1 sel.build
    obtain ⟨c, hc⟩ :=
      categoryPool_isSome "check_name" "checkstyle" repo.checkstyle_errors hwf.2 sel.checkstyle
    have hpool : errorPool repo sel = some (b ++ c) :=
      (errorPool_eq_some _ _ _).mpr ⟨b, c, hb, hc, rfl⟩
    rw [get_random_errors_unfold repo sel count rng (b ++ c) hpool]
    by_cases h1 : (b ++ c) ≠ []
    · rw [if_pos h1]
      by_cases h2 : (b ++ c).length ≤ count
      · rw [if_pos h2]
        exact ⟨_, rfl⟩
      · rw [if_neg h2]
        exact ⟨_, rfl⟩
    · rw [if_neg h1]
      exact ⟨_, rfl⟩
  · intro nameField typeStr c r hr hguide
    obtain ⟨n, hn⟩ := Option.isSome_iff_exists.mp hr.1
    obtain ⟨ds, hd⟩ := Option.isSome_iff_exists.mp hr.2
    refine ⟨n, ds, ?_⟩
    rw [toLlmRecord]
    simp only [hn, hd, hguide, Option.getD_none]

theorem get_random_errors_by_categories_total_witness :
    (∃ l, get_random_errors_by_categories demoRepo ⟨["Cat1"], ["CS1"]⟩ 4 [] = some l) ∧
    ∃ n d, toLlmRecord "error_name" "build" "Cat1"
        [("error_name", "E1"), ("description", "d1")] =
      some [("type", "build"), ("category", "Cat1"), ("name", n),
            ("description", d), ("implementation_guide", "")] :=
  ⟨(get_random_errors_by_categories_total demoRepo
      (by unfold repoWf recordWf; decide)).1 ⟨["Cat1"], ["CS1"]⟩ 4 [],
   (get_random_errors_by_categories_total demoRepo
      (by unfold repoWf recordWf; decide)).2 "error_name" "build" "Cat1"
     [("error_name", "E1"), ("description", "d1")] (by unfold recordWf; decide) rfl⟩

/-- C3: `_load_build_errors` (and symmetrically `_load_checkstyle_errors`)
probes exactly the six candidate paths in order — bare file name, module
directory, parent directory, and the parent's `data`, `resources` and
`assets` subdirectories — loads the dictionary from the first existing
path, stores it together with its key list and returns `True`; when no
candidate exists it returns `False` and the state is unchanged. -/
theorem load_error_files_path_probing :
    ∀ (fs : FileSys) (cur par : String) (repo : JsonErrorRepository),
      (∀ file_name, getPotentialFilePaths cur par file_name =
        [file_name,
         pathJoin cur file_name,
         pathJoin par file_name,
         pathJoin (pathJoin par "data") file_name,
         pathJoin (pathJoin par "resources") file_name,
         pathJoin (pathJoin par "assets") file_name] ∧
        (getPotentialFilePaths cur par file_name).length = 6) ∧
      (∀ (l₁ l₂ : List String) (p : String) (d : ErrorDict),
        getPotentialFilePaths cur par repo.build_errors_path = l₁ ++ p :: l₂ →
        (∀ q ∈ l₁, fs.lookup q = none) →
        fs.lookup p = some (some d) →
        loadBuildErrors fs cur par repo =
          (true, { repo with build_errors := d, build_categories := d.map Prod.fst })) ∧
      ((∀ q ∈ getPotentialFilePaths cur par repo.build_errors_path, fs.lookup q = none) →
        loadBuildErrors fs cur par repo = (false, repo)) ∧
      (∀ (l₁ l₂ : List String) (p : String) (d : ErrorDict),
        getPotentialFilePaths cur par repo.checkstyle_errors_path = l₁ ++ p :: l₂ →
        (∀ q ∈ l₁, fs.lookup q = none) →
        fs.lookup p = some (some d) →
        loadCheckstyleErrors fs cur par repo =
          (true,
           { repo with
             checkstyle_errors := d
             checkstyle_categories := d.map Prod.fst })) ∧
      ((∀ q ∈ getPotentialFilePaths cur par repo.checkstyle_errors_path,
          fs.lookup q = none) →
        loadCheckstyleErrors fs cur par repo = (false, repo)) := by
  intro fs cur par repo
  refine ⟨?_, ?_, ?_, ?_, ?_⟩
  · intro file_name
    exact ⟨rfl, rfl⟩
  · intro l₁ l₂ p d hsplit h1 hp
    rw [loadBuildErrors, hsplit, firstExisting_first fs l₁ p l₂ (some d) h1 hp]
  · intro hnone
    rw [loadBuildErrors, firstExisting_none fs _ hnone]
  · intro l₁ l₂ p d hsplit h1 hp
    rw [loadCheckstyleErrors, hsplit, firstExisting_first fs l₁ p l₂ (some d) h1 hp]
  · intro hnone
    rw [loadCheckstyleErrors, firstExisting_none fs _ hnone]

theorem load_error_files_path_probing_witness :
    loadBuildErrors demoFs "cd" "pd" emptyRepo =
      (true,
       { emptyRepo with
         build_errors := demoRepo.build_errors
         build_categories := ["Cat1"] }) ∧
    loadCheckstyleErrors demoFs "cd" "pd" emptyRepo =
      (true,
       { emptyRepo with
         checkstyle_errors := demoRepo.checkstyle_errors
         checkstyle_categories := ["CS1"] }) :=
  ⟨(load_error_files_path_probing demoFs "cd" "pd" emptyRepo).2.1 []
     ["cd/build_errors.json", "pd/build_errors.json", "pd/data/build_errors.json",
      "pd/resources/build_errors.json", "pd/assets/build_errors.json"]
     "build_errors.json" demoRepo.build_errors rfl (by simp) rfl,
   (load_error_files_path_probing demoFs "cd" "pd" emptyRepo).2.2.2.1 []
     ["cd/checkstyle_error.json", "pd/checkstyle_error.json", "pd/data/checkstyle_error.json",
      "pd/resources/checkstyle_error.json", "pd/assets/checkstyle_error.json"]
     "checkstyle_error.json" demoRepo.checkstyle_errors rfl (by simp) rfl⟩

/-- C8: no operation enforces uniqueness of error names: loading a
dictionary that holds two distinct records with the same `error_name`
succeeds without rejection, and `get_error_details` returns the first
matching record in category-then-list iteration order, ignoring the later
duplicate. -/
theorem duplicate_error_names_tolerated :
    ∀ (fs : FileSys) (cur par : String) (repo : JsonErrorRepository) (d : ErrorDict)
      (n : String) (l₁ l₂ l₃ : List ErrorRecord) (r r2 : ErrorRecord),
      (fs.lookup repo.build_errors_path = some (some d) →
        loadBuildErrors fs cur par repo =
          (true, { repo with build_errors := d, build_categories := d.map Prod.fst })) ∧
      (flattenRecords repo.build_errors = l₁ ++ r :: l₂ ++ r2 :: l₃ →
        r ≠ r2 →
        r.lookup "error_name" = some n →
        r2.lookup "error_name" = some n →
        (∀ x ∈ l₁, ¬(x.lookup "error_name" == some n)) →
        get_error_details repo "build" n = some r) := by
  intro fs cur par repo d n l₁ l₂ l₃ r r2
  constructor
  · intro hfs
    have hfirst : firstExisting fs (getPotentialFilePaths cur par repo.build_errors_path) =
        some (some d) := by
      rw [getPotentialFilePaths, firstExisting, hfs]
    rw [loadBuildErrors, hfirst]
  · intro hflat hne hr hr2 hl1
    rw [get_error_details]
    simp only [beq_self_eq_true, if_true, findInCategories_eq_find, hflat,
      List.find?_append]
    have h1 : l₁.find? (fun x => x.lookup "error_name" == some n) = none :=
      List.find?_eq_none.mpr hl1
    rw [h1]
    rw [List.find?_cons_of_pos _ (by simp [hr])]
    rfl

theorem duplicate_error_names_tolerated_witness :
    loadBuildErrors dupFs "cd" "pd" emptyRepo =
      (true,
       { emptyRepo with
         build_errors := dupRepo.build_errors
         build_categories := ["Cat1"] }) ∧
    get_error_details dupRepo "build" "Dup" =
      some [("error_name", "Dup"), ("description", "first")] :=
  ⟨(duplicate_error_names_tolerated dupFs "cd" "pd" emptyRepo dupRepo.build_errors
      "Dup" [] [] [] [] []).1 rfl,
   (duplicate_error_names_tolerated dupFs "cd" "pd" dupRepo dupRepo.build_errors
      "Dup" [] [] []
      [("error_name", "Dup"), ("description", "first")]
      [("error_name", "Dup"), ("description", "second")]).2 rfl (by decide) rfl rfl
      (by intro x hx; cases hx)⟩

/-- C4: `render_simple_mode` maps each selected problem area through the
fixed static configuration (Style, Logical, Performance, Security, Design
as listed), and the selected categories it computes are the duplicate-free
ordered union of the mapped lists (first occurrences kept, so `Nodup`);
every configured problem area maps to at least one underlying category. -/
theorem render_simple_mode_mapping :
    (problem_areas_config.lookup "Style" =
       some ⟨[], ["NamingConventionChecks", "WhitespaceAndFormattingChecks",
                  "JavadocChecks"]⟩ ∧
     problem_areas_config.lookup "Logical" = some ⟨["LogicalErrors"], []⟩ ∧
     problem_areas_config.lookup "Performance" =
       some ⟨["RuntimeErrors"], ["MetricsChecks"]⟩ ∧
     problem_areas_config.lookup "Security" =
       some ⟨["RuntimeErrors", "LogicalErrors"], ["CodeQualityChecks"]⟩ ∧
     problem_areas_config.lookup "Design" =
       some ⟨["LogicalErrors"], ["MiscellaneousChecks", "FileStructureChecks",
                                 "BlockChecks"]⟩) ∧
    (∀ areas : List String,
      (render_simple_mode_categories areas).build =
        firstDedup (areas.flatMap areaMappedBuild) ∧
      (render_simple_mode_categories areas).checkstyle =
        firstDedup (areas.flatMap areaMappedCheckstyle) ∧
      (render_simple_mode_categories areas).build.Nodup ∧
      (render_simple_mode_categories areas).checkstyle.Nodup) ∧
    (∀ p ∈ problem_areas_config, p.2.build ≠ [] ∨ p.2.checkstyle ≠ []) := by
  refine ⟨⟨rfl, rfl, rfl, rfl, rfl⟩, ?_, by decide⟩
  intro areas
  have h := render_fold areas ⟨[], []⟩
  rw [render_simple_mode_categories, h]
  refine ⟨by simp [firstDedup], by simp [firstDedup], ?_, ?_⟩
  · simpa using (firstDedupAux_nodup (areas.flatMap areaMappedBuild) []).1
  · simpa using (firstDedupAux_nodup (areas.flatMap areaMappedCheckstyle) []).1

theorem render_simple_mode_mapping_witness :
    (render_simple_mode_categories ["Security", "Design"]).build =
      firstDedup (["Security", "Design"].flatMap areaMappedBuild) ∧
    ((("Style",
       (⟨[], ["NamingConventionChecks", "WhitespaceAndFormattingChecks",
              "JavadocChecks"]⟩ : SelectedCats)) : String × SelectedCats).2.build ≠ [] ∨
     (("Style",
       (⟨[], ["NamingConventionChecks", "WhitespaceAndFormattingChecks",
              "JavadocChecks"]⟩ : SelectedCats)) : String × SelectedCats).2.checkstyle ≠ []) :=
  ⟨(render_simple_mode_mapping.2.1 ["Security", "Design"]).1,
   render_simple_mode_mapping.2.2 _ (by decide)⟩

theorem llmAfterSubst_length :
    ∀ (repo : JsonErrorRepository) (sc : SelectedCats) (adj : Nat) (rng : List Nat)
      (errs : List ErrorRecord) (descs : List String),
      llmAfterSubst repo sc adj rng = some (errs, descs) → errs.length ≤ adj := by
  intro repo sc adj rng errs descs h
  rw [llmAfterSubst] at h
  split at h
  · exact Option.noConfusion h
  · split at h
    · exact Option.noConfusion h
    · split at h
      · simp only [Option.some.injEq, Prod.mk.injEq] at h
        obtain ⟨he, _⟩ := h
        rw [← he, randomSample_length]
        exact Nat.min_le_left _ _
      · simp only [Option.some.injEq, Prod.mk.injEq] at h
        obtain ⟨he, _⟩ := h
        rw [← he]
        omega

theorem llmCategoryBranch_length :
    ∀ (repo : JsonErrorRepository) (osel : Option SelectedCats) (adj : Nat) (rng : List Nat)
      (errs : List ErrorRecord) (descs : List String),
      llmCategoryBranch repo osel adj rng = some (errs, descs) → errs.length ≤ adj := by
  intro repo osel adj rng errs descs h
  rw [llmCategoryBranch.eq_def] at h
  split at h
  · simp only [Option.some.injEq, Prod.mk.injEq] at h
    obtain ⟨he, _⟩ := h
    rw [← he]
    simp
  · split at h
    · exact llmAfterSubst_length _ _ _ _ _ _ h
    · exact llmAfterSubst_length _ _ _ _ _ _ h

/-- C9: with no specific errors, the error list returned by
`get_errors_for_llm` has length at most the difficulty-adjusted count:
`max 2 (count - 2)` for `"easy"`, `count + 2` for `"hard"`, `count` for
`"medium"` and for any unrecognised difficulty (case-insensitively). -/
theorem get_errors_for_llm_count_bound :
    ∀ (repo : JsonErrorRepository) (osel : Option SelectedCats)
      (specific_errors : Option (List ErrorRecord)) (count : Nat)
      (difficulty : String) (rng : List Nat)
      (errs : List ErrorRecord) (descs : List String),
      (specific_errors = none ∨ specific_errors = some []) →
      get_errors_for_llm repo osel specific_errors count difficulty rng =
        some (errs, descs) →
      errs.length ≤ adjustedCount difficulty count ∧
      (pyLower difficulty = "easy" → adjustedCount difficulty count = max 2 (count - 2)) ∧
      (pyLower difficulty = "medium" → adjustedCount difficulty count = count) ∧
      (pyLower difficulty = "hard" → adjustedCount difficulty count = count + 2) ∧
      (pyLower difficulty ≠ "easy" → pyLower difficulty ≠ "medium" →
        pyLower difficulty ≠ "hard" → adjustedCount difficulty count = count) := by
  intro repo osel specific_errors count difficulty rng errs descs hspec hrun
  have hbranch : llmCategoryBranch repo osel (adjustedCount difficulty count) rng =
      some (errs, descs) := by
    rcases hspec with rfl | rfl
    · rw [get_errors_for_llm] at hrun
      exact hrun
    · rw [get_errors_for_llm] at hrun
      simpa using hrun
  refine ⟨llmCategoryBranch_length repo osel _ rng errs descs hbranch, ?_, ?_, ?_, ?_⟩
  · intro h
    rw [adjustedCount, h, if_pos (by decide)]
  · intro h
    rw [adjustedCount, h, if_neg (by decide), if_pos (by decide)]
  · intro h
    rw [adjustedCount, h, if_neg (by decide), if_neg (by decide), if_pos (by decide)]
  · intro h1 h2 h3
    rw [adjustedCount, if_neg (by simp [h1]), if_neg (by simp [h2]), if_neg (by simp [h3])]

theorem get_errors_for_llm_count_bound_witness :
    ([[("type", "build"), ("category", "Cat1"), ("name", "E2"),
       ("description", "d2"), ("implementation_guide", "g2")],
      [("type", "checkstyle"), ("category", "CS1"), ("name", "K1"),
       ("description", "dk"), ("implementation_guide", "")]] : List ErrorRecord).length ≤
      adjustedCount "Easy" 4 ∧
    adjustedCount "Easy" 4 = max 2 (4 - 2) :=
  have h := get_errors_for_llm_count_bound demoRepo (some ⟨["Cat1"], ["CS1"]⟩) none 4 "Easy"
    [0, 1, 2, 3, 4, 5]
    [[("type", "build"), ("category", "Cat1"), ("name", "E2"),
      ("description", "d2"), ("implementation_guide", "g2")],
     [("type", "checkstyle"), ("category", "CS1"), ("name", "K1"),
      ("description", "dk"), ("implementation_guide", "")]]
    ["Build Error - E2: d2 (Category: Cat1)", "Checkstyle Error - K1: dk (Category: CS1)"]
    (Or.inl rfl) (by decide)
  ⟨h.1, h.2.1 (by decide)⟩

/-- C10 counterexample: with no specific errors and both selected lists
empty, `get_errors_for_llm` on a repository lacking the default categories
does return the empty result — the default substitution happens, but every
default category misses the taxonomies, so the selection is empty. -/
theorem get_errors_for_llm_empty_default_counterexample :
    get_errors_for_llm emptyRepo (some ⟨[], []⟩) none 4 "medium" [] = some ([], []) := by
  decide

/-- C10 (amended): with no specific errors and both selected lists empty,
`get_errors_for_llm` silently substitutes the default selection — build
`CompileTimeErrors`, `RuntimeErrors`, `LogicalErrors`; checkstyle
`NamingConventionChecks`, `WhitespaceAndFormattingChecks` — and behaves
exactly as if called with that default selection; the result can still be
empty when the taxonomies contain none of the default categories. -/
theorem get_errors_for_llm_default_substitution :
    ∀ (repo : JsonErrorRepository) (sc : SelectedCats)
      (specific_errors : Option (List ErrorRecord)) (count : Nat)
      (difficulty : String) (rng : List Nat),
      sc.build = [] → sc.checkstyle = [] →
      (specific_errors = none ∨ specific_errors = some []) →
      get_errors_for_llm repo (some sc) specific_errors count difficulty rng =
        get_errors_for_llm repo (some defaultLlmCategories) specific_errors count
          difficulty rng := by
  intro repo sc specific_errors count difficulty rng hb hcs hspec
  cases sc with
  | mk b cs =>
    simp only at hb hcs
    subst hb
    subst hcs
    rcases hspec with rfl | rfl
    · rfl
    · rfl

theorem get_errors_for_llm_default_substitution_witness :
    get_errors_for_llm demoRepo (some ⟨[], []⟩) none 4 "medium" [0, 1, 2, 3] =
      get_errors_for_llm demoRepo (some defaultLlmCategories) none 4 "medium" [0, 1, 2, 3] :=
  get_errors_for_llm_default_substitution demoRepo ⟨[], []⟩ none 4 "medium" [0, 1, 2, 3]
    rfl rfl (Or.inl rfl)
